import Mathlib

/-!
# Verification of the pmagent task-planning state machine

The pmagent repository serves a small request/task planning protocol
(`request_planning`, `get_next_task`, `mark_task_done`,
`approve_task_completion`, `approve_request_completion`,
`add_tasks_to_request`, `update_task`, `delete_task`, `list_requests`,
`open_task_details`).  The core implementation (`pmagent/task_manager.py`,
`pmagent/mcp_server.py`) is not shipped in this tree — only its JSON tool
schemas (`pmagent-mcp.json`, `tools_result.json`), recorded test transcripts
(`test_output3.txt`, `test_output_py.txt`, `test_results.txt`,
`install.sh`) and callers are.  The planner itself is therefore modelled
from the specification, faithful to its words, while the tool schemas and
the recorded HTTP behaviour are embedded directly from the files present
in the tree.
-/

namespace PMAgent

/-- Task status: a task is `PENDING` until `mark_task_done` moves it to `DONE`. -/
inductive TStatus where
  | PENDING
  | DONE
deriving DecidableEq, Repr

/-- Request status: a request is `PENDING` until `approve_request_completion`
moves it to `COMPLETED`. -/
inductive RStatus where
  | PENDING
  | COMPLETED
deriving DecidableEq, Repr

/-- Modelled from the spec: the Task record of §3 (the defining code,
`pmagent/task_manager.py`, is absent from the tree).  UUID identifiers are
modelled as numbers drawn from a global counter; timestamps are modelled as
values of a logical clock held in the planner state. -/
structure Task where
  id : Nat
  title : String
  description : String
  status : TStatus
  approved : Bool
  completedDetails : Option String
  createdAt : Nat
  updatedAt : Nat
  completedAt : Option Nat
  approvedAt : Option Nat
deriving DecidableEq, Repr

/-- Modelled from the spec: the Request record of §3 (the defining code,
`pmagent/task_manager.py`, is absent from the tree).  The task list is kept
in insertion order. -/
structure Request where
  id : Nat
  originalRequest : String
  splitDetails : Option String
  tasks : List Task
  status : RStatus
  createdAt : Nat
  updatedAt : Nat
deriving DecidableEq, Repr

/-- Modelled from the spec: the planner's whole in-memory store (§5, §9) —
the ordered collection of requests, the id counter and the logical clock. -/
structure PlannerState where
  requests : List Request
  nextId : Nat
  clock : Nat
deriving DecidableEq, Repr

/-- The empty store a fresh planner process starts from. -/
def initState : PlannerState := { requests := [], nextId := 0, clock := 0 }

/-- Modelled from the spec: the three error kinds of §7. A `validationError`
optionally reports the index of the offending task entry; an
`invalidStateError` optionally lists the ids of the offending tasks. -/
inductive PlannerError where
  | validationError (msg : String) (idx : Option Nat)
  | notFoundError (msg : String)
  | invalidStateError (msg : String) (taskIds : List Nat)
deriving DecidableEq, Repr

/-- The message a planner error is rendered with at the dispatch boundary. -/
def errMessage : PlannerError → String
  | .validationError m _ => m
  | .notFoundError m => m
  | .invalidStateError m _ => m

/-- Modelled from the spec (§4, §9): a task entry arriving at the boundary is
either a mapping (whose `title` key may be absent and whose `description`
defaults to empty) or a list-form entry. -/
inductive TaskInput where
  | obj (title : Option String) (description : Option String)
  | pair (elems : List String)
deriving DecidableEq, Repr

/-- Modelled from the spec: normalization of one task entry to the canonical
`(title, description)` form — a mapping with a `title` key is accepted, a
two-element ordered pair `[title, description]` is converted, anything else
is rejected (`request_planning` input handling, §4.1). -/
def normalizeTask : TaskInput → Option (String × String)
  | .obj (some t) d => some (t, d.getD "")
  | .obj none _ => none
  | .pair [t, d] => some (t, d)
  | .pair _ => none

/-- Modelled from the spec: normalization of a task list, reporting the index
of the first entry that cannot be normalized. -/
def normalizeTasksFrom (i : Nat) : List TaskInput → Except PlannerError (List (String × String))
  | [] => .ok []
  | t :: ts =>
    match normalizeTask t with
    | some p =>
      match normalizeTasksFrom (i + 1) ts with
      | .ok ps => .ok (p :: ps)
      | .error e => .error e
    | none => .error (.validationError "task entry cannot be normalized" (some i))

/-- Normalization of a task list, indices starting at 0. -/
def normalizeTasks (ts : List TaskInput) : Except PlannerError (List (String × String)) :=
  normalizeTasksFrom 0 ts

/-- A freshly created task: `PENDING`, unapproved, timestamps at the clock. -/
def mkTask (tid clk : Nat) (p : String × String) : Task :=
  { id := tid, title := p.1, description := p.2, status := .PENDING,
    approved := false, completedDetails := none,
    createdAt := clk, updatedAt := clk, completedAt := none, approvedAt := none }

/-- Fresh tasks for the given title/description pairs, ids counting up. -/
def mkTasks (tid clk : Nat) : List (String × String) → List Task
  | [] => []
  | p :: ps => mkTask tid clk p :: mkTasks (tid + 1) clk ps

/-- Replace the first element whose key is `k` by `a` (later elements with the
same key are untouched; in the planner ids are unique anyway). -/
def replaceFirstBy (key : α → Nat) (k : Nat) (a : α) : List α → List α
  | [] => []
  | x :: xs => if key x == k then a :: xs else x :: replaceFirstBy key k a xs

/-- Remove the first element whose key is `k`. -/
def removeFirstBy (key : α → Nat) (k : Nat) : List α → List α
  | [] => []
  | x :: xs => if key x == k then xs else x :: removeFirstBy key k xs

/-- The task as `mark_task_done` rewrites it: `DONE`, completion recorded. -/
def markedTask (clk : Nat) (cd : Option String) (t : Task) : Task :=
  { t with
    status := TStatus.DONE, updatedAt := clk,
    completedAt := some clk, completedDetails := cd }

/-- The task as `approve_task_completion` rewrites it: approved, stamped. -/
def approvedTask (clk : Nat) (t : Task) : Task :=
  { t with approved := true, approvedAt := some clk, updatedAt := clk }

/-- The task as `update_task` rewrites it: provided fields replaced. -/
def updatedTask (clk : Nat) (ti de : Option String) (t : Task) : Task :=
  { t with
    title := ti.getD t.title, description := de.getD t.description,
    updatedAt := clk }

/-- A request with its task list replaced and `updatedAt` refreshed. -/
def setTasks (r : Request) (ts : List Task) (clk : Nat) : Request :=
  { r with tasks := ts, updatedAt := clk }

/-- The request as `approve_request_completion` rewrites it: `COMPLETED`. -/
def completedRequest (clk : Nat) (r : Request) : Request :=
  { r with status := RStatus.COMPLETED, updatedAt := clk }

/-- Look a request up by id. -/
def findRequest (s : PlannerState) (rid : Nat) : Option Request :=
  s.requests.find? (fun r => r.id == rid)

/-- Look a task up by id inside one request. -/
def findTask (r : Request) (tid : Nat) : Option Task :=
  r.tasks.find? (fun t => t.id == tid)

/-- Store the updated version of request `rid`, advancing the clock. -/
def putRequest (s : PlannerState) (rid : Nat) (r : Request) : PlannerState :=
  { s with requests := replaceFirstBy Request.id rid r s.requests, clock := s.clock + 1 }

/-- The tasks of a request that are not yet both done and approved —
exactly the ones `approve_request_completion` reports on failure. -/
def notDoneApproved (r : Request) : List Task :=
  r.tasks.filter (fun t => !(t.status == TStatus.DONE && t.approved))

/-- How many of a request's tasks are done. -/
def doneCount (r : Request) : Nat :=
  (r.tasks.filter (fun t => t.status == TStatus.DONE)).length

/-- Header row of the progress table, as recorded in `test_output_py.txt`
(columns `#`, ID, title, status, approved). -/
def tableHeader : String := "| # | ID | 작업 제목 | 상태 | 승인 |"

/-- Separator row of the progress table, as recorded in `test_output_py.txt`. -/
def tableSep : String := "|---|----|-----------|------|------|"

/-- Status cell of the progress table: ⏳ for a pending task, ✅ for a done
one (spec §6; the pending cell as recorded in `test_output_py.txt`). -/
def statusCell : TStatus → String
  | .PENDING => "⏳ 대기 중"
  | .DONE => "✅ 완료"

/-- Approval cell of the progress table: ✓ when approved, ✗ otherwise
(spec §6; the unapproved cell as recorded in `test_output_py.txt`). -/
def approvedCell : Bool → String
  | true => "✓"
  | false => "✗"

/-- One row of the progress table for task `t` displayed at position `i`. -/
def progressRow (i : Nat) (t : Task) : String :=
  "| " ++ toString i ++ " | " ++ toString t.id ++ " | " ++ t.title ++ " | "
    ++ statusCell t.status ++ " | " ++ approvedCell t.approved ++ " |"

/-- The rows of the progress table, positions counting from `i`. -/
def progressRowsFrom (i : Nat) : List Task → List String
  | [] => []
  | t :: ts => progressRow i t :: progressRowsFrom (i + 1) ts

/-- Modelled from the spec (§6) and the sample recorded in
`test_output_py.txt`: the Markdown progress table — header, separator, one
row per task in request order, positions counting from 1. -/
def renderProgressTable (ts : List Task) : String :=
  String.intercalate "\n" (tableHeader :: tableSep :: progressRowsFrom 1 ts) ++ "\n"

/-- The per-task summary returned by `get_next_task` (`tasksProgress` in the
transcript `unnamed/part_000`): id, title, status and approval of each task. -/
structure TaskSummary where
  id : Nat
  title : String
  status : TStatus
  approved : Bool
deriving DecidableEq, Repr

/-- Summary of one task for progress display. -/
def summarizeTask (t : Task) : TaskSummary :=
  { id := t.id, title := t.title, status := t.status, approved := t.approved }

/-- Modelled from the spec: the `get_next_task` result — whether a next task
exists, whether all tasks are done, the first pending task if any, the
per-task summaries, and the rendered progress table (§4.1, §6; field names
as recorded in `unnamed/part_000`). -/
structure NextTaskResult where
  hasNextTask : Bool
  allTasksDone : Bool
  task : Option Task
  tasksProgress : List TaskSummary
  progressTable : String
deriving DecidableEq, Repr

/-- Modelled from the spec: one row of the `list_requests` answer — id,
original request, status, timestamps, task count, completed count and the
`"done/total"` progress string (§4.1; field names as recorded in
`install.sh`'s transcript). -/
structure RequestSummary where
  id : Nat
  originalRequest : String
  status : RStatus
  createdAt : Nat
  updatedAt : Nat
  taskCount : Nat
  completedCount : Nat
  progress : String
deriving DecidableEq, Repr

/-- Summary of one request for `list_requests`. -/
def summarizeRequest (r : Request) : RequestSummary :=
  { id := r.id, originalRequest := r.originalRequest, status := r.status,
    createdAt := r.createdAt, updatedAt := r.updatedAt,
    taskCount := r.tasks.length, completedCount := doneCount r,
    progress := toString (doneCount r) ++ "/" ++ toString r.tasks.length }

/-- The per-operation answers carried inside a successful envelope. -/
inductive Output where
  | planned (requestId taskCount : Nat) (progressTable : String)
  | next (res : NextTaskResult)
  | markedDone
  | taskApproved
  | requestApproved
  | tasksAdded (count : Nat)
  | taskUpdated
  | taskDeleted
  | listed (items : List RequestSummary)
  | details (requestId : Nat) (task : Task)
deriving DecidableEq, Repr

/-- Modelled from the spec: `request_planning` (§4.1) — requires an
`originalRequest` and a non-empty task list, normalizes every entry
(reporting the failing index), and persists a fresh `PENDING` request whose
tasks keep the input order.  Returns the request id, the task count and the
rendered progress table. -/
def request_planning (s : PlannerState) (originalRequest : Option String)
    (tasks : List TaskInput) (splitDetails : Option String) :
    Except PlannerError (PlannerState × Output) :=
  match originalRequest with
  | none => .error (.validationError "originalRequest is required" none)
  | some orig =>
    if tasks.isEmpty then
      .error (.validationError "tasks must be a non-empty list" none)
    else
      match normalizeTasks tasks with
      | .error e => .error e
      | .ok pairs =>
        let rid := s.nextId
        let ts := mkTasks (s.nextId + 1) s.clock pairs
        let req : Request :=
          { id := rid, originalRequest := orig, splitDetails := splitDetails,
            tasks := ts, status := .PENDING,
            createdAt := s.clock, updatedAt := s.clock }
        .ok ({ requests := s.requests ++ [req],
               nextId := s.nextId + 1 + pairs.length, clock := s.clock + 1 },
             .planned rid ts.length (renderProgressTable ts))

/-- Modelled from the spec: `get_next_task` (§4.1) — fails with
`NotFoundError` on an unknown request id; otherwise returns the first task
in insertion order whose status is `PENDING` (none when all tasks are done,
signalled by `hasNextTask = false` rather than an error) together with the
per-task summaries.  Mutates nothing.  `nextTaskResultOf` builds the
answer for a found request. -/
def nextTaskResultOf (r : Request) : NextTaskResult :=
  { hasNextTask := (r.tasks.find? (fun t => t.status == TStatus.PENDING)).isSome,
    allTasksDone := r.tasks.all (fun t => t.status == TStatus.DONE),
    task := r.tasks.find? (fun t => t.status == TStatus.PENDING),
    tasksProgress := r.tasks.map summarizeTask,
    progressTable := renderProgressTable r.tasks }

def get_next_task (s : PlannerState) (rid : Nat) : Except PlannerError Output :=
  match findRequest s rid with
  | none => .error (.notFoundError "request not found")
  | some r => .ok (.next (nextTaskResultOf r))

/-- Modelled from the spec: `mark_task_done` (§4.1) — `NotFoundError` when
the request or the task is missing, `InvalidStateError` when the task is
already `DONE`; otherwise moves the task to `DONE`, recording
`completedAt` and the optional `completedDetails`. -/
def mark_task_done (s : PlannerState) (rid tid : Nat)
    (completedDetails : Option String) : Except PlannerError (PlannerState × Output) :=
  match findRequest s rid with
  | none => .error (.notFoundError "request not found")
  | some r =>
    match findTask r tid with
    | none => .error (.notFoundError "task not found")
    | some t =>
      if t.status == TStatus.DONE then
        .error (.invalidStateError "task is already done" [t.id])
      else
        let r' := setTasks r
          (replaceFirstBy Task.id tid (markedTask s.clock completedDetails t) r.tasks)
          s.clock
        .ok (putRequest s rid r', .markedDone)

/-- Modelled from the spec: `approve_task_completion` (§4.1) —
`InvalidStateError` when the task is not yet `DONE` or already approved
(the second approval of a task is a hard failure); otherwise sets
`approved` and `approvedAt`. -/
def approve_task_completion (s : PlannerState) (rid tid : Nat) :
    Except PlannerError (PlannerState × Output) :=
  match findRequest s rid with
  | none => .error (.notFoundError "request not found")
  | some r =>
    match findTask r tid with
    | none => .error (.notFoundError "task not found")
    | some t =>
      if !(t.status == TStatus.DONE) then
        .error (.invalidStateError "task is not done yet" [t.id])
      else if t.approved then
        .error (.invalidStateError "task is already approved" [t.id])
      else
        let r' := setTasks r
          (replaceFirstBy Task.id tid (approvedTask s.clock t) r.tasks) s.clock
        .ok (putRequest s rid r', .taskApproved)

/-- Modelled from the spec: `approve_request_completion` (§4.1) — requires
every task of the request to be `DONE` and approved; then the request
becomes `COMPLETED`.  Otherwise fails with `InvalidStateError` listing the
tasks that are not yet done or approved. -/
def approve_request_completion (s : PlannerState) (rid : Nat) :
    Except PlannerError (PlannerState × Output) :=
  match findRequest s rid with
  | none => .error (.notFoundError "request not found")
  | some r =>
    match notDoneApproved r with
    | [] =>
      .ok (putRequest s rid (completedRequest s.clock r), .requestApproved)
    | bad =>
      .error (.invalidStateError "tasks not yet done or approved" (bad.map Task.id))

/-- Modelled from the spec: `add_tasks_to_request` (§4.1) — `NotFoundError`
when the request is missing, `InvalidStateError` when it is already
`COMPLETED`; otherwise normalizes the entries exactly as `request_planning`
does and appends the fresh tasks at the end of the request's list. -/
def add_tasks_to_request (s : PlannerState) (rid : Nat) (tasks : List TaskInput) :
    Except PlannerError (PlannerState × Output) :=
  match findRequest s rid with
  | none => .error (.notFoundError "request not found")
  | some r =>
    if r.status == RStatus.COMPLETED then
      .error (.invalidStateError "request is already completed" [])
    else
      match normalizeTasks tasks with
      | .error e => .error e
      | .ok pairs =>
        let ts := mkTasks s.nextId s.clock pairs
        let r' := setTasks r (r.tasks ++ ts) s.clock
        .ok ({ putRequest s rid r' with nextId := s.nextId + pairs.length },
             .tasksAdded ts.length)

/-- Modelled from the spec: `update_task` (§4.1) — allowed only while the
task is `PENDING` (`InvalidStateError` when it is `DONE`); updates the
provided fields and `updatedAt`. -/
def update_task (s : PlannerState) (rid tid : Nat)
    (title description : Option String) : Except PlannerError (PlannerState × Output) :=
  match findRequest s rid with
  | none => .error (.notFoundError "request not found")
  | some r =>
    match findTask r tid with
    | none => .error (.notFoundError "task not found")
    | some t =>
      if t.status == TStatus.DONE then
        .error (.invalidStateError "a done task cannot be updated" [t.id])
      else
        let r' := setTasks r
          (replaceFirstBy Task.id tid (updatedTask s.clock title description t) r.tasks)
          s.clock
        .ok (putRequest s rid r', .taskUpdated)

/-- Modelled from the spec: `delete_task` (§4.1) — allowed only while the
task is `PENDING` (`InvalidStateError` when it is `DONE`, completed work
being undeletable); removes the task from the request's list. -/
def delete_task (s : PlannerState) (rid tid : Nat) :
    Except PlannerError (PlannerState × Output) :=
  match findRequest s rid with
  | none => .error (.notFoundError "request not found")
  | some r =>
    match findTask r tid with
    | none => .error (.notFoundError "task not found")
    | some t =>
      if t.status == TStatus.DONE then
        .error (.invalidStateError "a done task cannot be deleted" [t.id])
      else
        let r' := setTasks r (removeFirstBy Task.id tid r.tasks) s.clock
        .ok (putRequest s rid r', .taskDeleted)

/-- Modelled from the spec: `list_requests` (§4.1) — every stored request,
in server-held (insertion) order, summarized; no pagination. -/
def list_requests (s : PlannerState) : List RequestSummary :=
  s.requests.map summarizeRequest

/-- Modelled from the spec: `open_task_details` (§4.1) — global lookup of a
task by id across all requests, returning the task and its owning request's
id; `NotFoundError` when no request contains the task. -/
def open_task_details (s : PlannerState) (tid : Nat) : Except PlannerError Output :=
  match s.requests.find? (fun r => (findTask r tid).isSome) with
  | none => .error (.notFoundError "task not found")
  | some r =>
    match findTask r tid with
    | none => .error (.notFoundError "task not found")
    | some t => .ok (.details r.id t)

/-- One invocation of the planner: the operation name and its decoded
arguments, exactly the operation set of spec §4.1. -/
inductive Op where
  | requestPlanning (originalRequest : Option String)
      (tasks : List TaskInput) (splitDetails : Option String)
  | getNextTask (rid : Nat)
  | markTaskDone (rid tid : Nat) (completedDetails : Option String)
  | approveTaskCompletion (rid tid : Nat)
  | approveRequestCompletion (rid : Nat)
  | addTasksToRequest (rid : Nat) (tasks : List TaskInput)
  | updateTask (rid tid : Nat) (title description : Option String)
  | deleteTask (rid tid : Nat)
  | listRequests
  | openTaskDetails (tid : Nat)
deriving DecidableEq, Repr

/-- Run one operation against the store, propagating the planner error if
any (queries leave the state unchanged by construction). -/
def opRun (s : PlannerState) : Op → Except PlannerError (PlannerState × Output)
  | .requestPlanning orig ts sd => request_planning s orig ts sd
  | .getNextTask rid => (get_next_task s rid).map (fun o => (s, o))
  | .markTaskDone rid tid cd => mark_task_done s rid tid cd
  | .approveTaskCompletion rid tid => approve_task_completion s rid tid
  | .approveRequestCompletion rid => approve_request_completion s rid
  | .addTasksToRequest rid ts => add_tasks_to_request s rid ts
  | .updateTask rid tid ti de => update_task s rid tid ti de
  | .deleteTask rid tid => delete_task s rid tid
  | .listRequests => .ok (s, .listed (list_requests s))
  | .openTaskDetails tid => (open_task_details s tid).map (fun o => (s, o))

/-- The uniform response envelope of spec §6/§7: `{success: true, ...}` or
`{success: false, error: <message>}`. -/
inductive Response where
  | success (out : Output)
  | failure (error : String)
deriving DecidableEq, Repr

/-- Modelled from the spec (§7): the dispatch boundary — every planner error
is caught and rendered as the uniform failure envelope, and a failed
operation leaves the store exactly as it was (all-or-nothing). -/
def step (s : PlannerState) (op : Op) : PlannerState × Response :=
  match opRun s op with
  | .ok (s', out) => (s', .success out)
  | .error e => (s, .failure (errMessage e))

/-- The state after one dispatched operation. -/
def applyOp (s : PlannerState) (op : Op) : PlannerState := (step s op).1

/-- The state after a whole trace of dispatched operations. -/
def runOps (s : PlannerState) : List Op → PlannerState
  | [] => s
  | op :: ops => runOps (applyOp s op) ops

/-- The `parameters` member of an `/invoke` payload: either a JSON object
(decoded to an operation) or a JSON list — the malformed shape exercised by
`test_invoke_with_list_params` in `test_output3.txt`. -/
inductive ParamsShape where
  | obj (op : Op)
  | list
deriving DecidableEq, Repr

/-- The body of an HTTP answer from `/invoke`: either the in-band
success/error envelope, or a framework-level validation detail that never
reaches the envelope. -/
inductive HttpBody where
  | envelope (resp : Response)
  | validationDetail (msg : String)
deriving DecidableEq, Repr

/-- Does the decoded operation carry a list-form task entry?  The recorded
run in `test_output3.txt` (test `test_non_dict_tasks`, log line
`요청 계획 생성 실패: 태스크[0]를 딕셔너리로 변환할 수 없습니다`) shows the served
`request_planning` path rejecting list-form entries before the planner
proper runs. -/
def hasListFormTask (op : Op) : Bool :=
  match op with
  | .requestPlanning _ ts _ =>
    ts.any (fun t => match t with | .pair _ => true | .obj _ _ => false)
  | .addTasksToRequest _ ts =>
    ts.any (fun t => match t with | .pair _ => true | .obj _ _ => false)
  | _ => false

/-- Modelled from the spec (§6) and the recorded transcripts
(`test_output3.txt`, `test_output_py.txt`, `install.sh`): the HTTP
behaviour of `/invoke` — list-shaped `parameters` are rejected by the
framework with status 422; a list-form task entry is rejected by the served
handler with status 400 (never reaching the envelope); every other call is
answered with status 200 and the in-band success/error envelope. -/
def invokeHttp (s : PlannerState) (params : ParamsShape) :
    PlannerState × Nat × HttpBody :=
  match params with
  | .list => (s, 422, .validationDetail "value is not a valid dict")
  | .obj op =>
    if hasListFormTask op then
      (s, 400, .validationDetail "태스크[0]를 딕셔너리로 변환할 수 없습니다")
    else
      let (s', r) := step s op
      (s', 200, .envelope r)

/-- A served tool's parameter schema, as published in the repository's JSON
interface files: the required parameter names and the declared properties
with their descriptions. -/
structure ToolParamsSchema where
  required : List String
  properties : List (String × String)
deriving DecidableEq, Repr

/-- The `list_requests` parameter schema served in `tools_result.json`
(lines 161–176): a required `random_string` parameter described as a
placeholder for parameter-less tools. -/
def toolsResult_list_requests : ToolParamsSchema :=
  { required := ["random_string"],
    properties := [("random_string", "무작위 문자열 (파라미터 없는 도구용)")] }

/-- The `list_requests` parameter schema declared in `pmagent-mcp.json`
(lines 203–210): an empty parameters object — no required member, no
properties. -/
def pmagentMcp_list_requests : ToolParamsSchema :=
  { required := [], properties := [] }

/-- Invariant of claim C2: an approved task is always done. -/
def ApprovedInv (s : PlannerState) : Prop :=
  ∀ r ∈ s.requests, ∀ t ∈ r.tasks, t.approved = true → t.status = TStatus.DONE

/-- Invariant of claim C1: a completed request has all tasks done and
approved. -/
def CompletedInv (s : PlannerState) : Prop :=
  ∀ r ∈ s.requests, r.status = RStatus.COMPLETED →
    ∀ t ∈ r.tasks, t.status = TStatus.DONE ∧ t.approved = true

/-- A placeholder task used only as the default of list lookups below. -/
def dummyTask : Task :=
  { id := 0, title := "", description := "", status := TStatus.PENDING,
    approved := false, completedDetails := none,
    createdAt := 0, updatedAt := 0, completedAt := none, approvedAt := none }

/-- A placeholder request used only as the default of list lookups below. -/
def dummyRequest : Request :=
  { id := 0, originalRequest := "", splitDetails := none, tasks := [],
    status := RStatus.PENDING, createdAt := 0, updatedAt := 0 }

/-- The two-task scenario of spec §8: plan, complete and approve both
tasks, then approve the whole request. -/
def demoOps : List Op :=
  [ .requestPlanning (some "X")
      [.obj (some "A") (some "B"), .obj (some "C") none] none,
    .markTaskDone 0 1 none,
    .approveTaskCompletion 0 1,
    .markTaskDone 0 2 (some "d"),
    .approveTaskCompletion 0 2,
    .approveRequestCompletion 0 ]

/-- The store after the full §8 scenario: one `COMPLETED` request. -/
def demoState : PlannerState := runOps initState demoOps

/-- The completed request of the §8 scenario. -/
def demoRequest : Request := demoState.requests.getD 0 dummyRequest

/-- The first (done and approved) task of the §8 scenario. -/
def demoTask : Task := demoRequest.tasks.getD 0 dummyTask

/-- The store right after planning the §8 scenario (nothing done yet). -/
def demoState1 : PlannerState :=
  runOps initState
    [.requestPlanning (some "X")
      [.obj (some "A") (some "B"), .obj (some "C") none] none]

/-- The request of `demoState1`, both tasks still pending. -/
def demoRequest1 : Request := demoState1.requests.getD 0 dummyRequest

/-- The store after planning and completing the first task. -/
def demoState2 : PlannerState :=
  runOps initState
    [.requestPlanning (some "X")
      [.obj (some "A") (some "B"), .obj (some "C") none] none,
     .markTaskDone 0 1 none]

/-- The request of `demoState2`. -/
def demoRequest2 : Request := demoState2.requests.getD 0 dummyRequest

/-- The done (not yet approved) first task of `demoState2`. -/
def demoTask2 : Task := demoRequest2.tasks.getD 0 dummyTask


end PMAgent




namespace PMAgent

theorem mem_replaceFirstBy {key : α → Nat} {k : Nat} {a x : α} :
    ∀ {l : List α}, x ∈ replaceFirstBy key k a l → x = a ∨ x ∈ l
  | [], h => by simp [replaceFirstBy] at h
  | y :: ys, h => by
    cases hy : key y == k with
    | true =>
      rw [replaceFirstBy, if_pos hy] at h
      rcases List.mem_cons.mp h with rfl | h
      · exact Or.inl rfl
      · exact Or.inr (List.mem_cons_of_mem _ h)
    | false =>
      rw [replaceFirstBy, if_neg (by simp [hy])] at h
      rcases List.mem_cons.mp h with rfl | h
      · exact Or.inr (List.mem_cons_self _ _)
      · rcases mem_replaceFirstBy h with h' | h'
        · exact Or.inl h'
        · exact Or.inr (List.mem_cons_of_mem _ h')

theorem mem_removeFirstBy {key : α → Nat} {k : Nat} {x : α} :
    ∀ {l : List α}, x ∈ removeFirstBy key k l → x ∈ l
  | [], h => by simp [removeFirstBy] at h
  | y :: ys, h => by
    cases hy : key y == k with
    | true =>
      rw [removeFirstBy, if_pos hy] at h
      exact List.mem_cons_of_mem _ h
    | false =>
      rw [removeFirstBy, if_neg (by simp [hy])] at h
      rcases List.mem_cons.mp h with rfl | h
      · exact List.mem_cons_self _ _
      · exact List.mem_cons_of_mem _ (mem_removeFirstBy h)

theorem find?_replaceFirstBy_self {key : α → Nat} {k : Nat} {a : α}
    (ha : key a = k) :
    ∀ {l : List α} {x : α}, l.find? (fun y => key y == k) = some x →
      (replaceFirstBy key k a l).find? (fun y => key y == k) = some a
  | [], x, h => by simp at h
  | y :: ys, x, h => by
    cases hy : key y == k with
    | true =>
      rw [replaceFirstBy, if_pos hy]
      simp only [List.find?, ha, beq_self_eq_true]
    | false =>
      rw [replaceFirstBy, if_neg (by simp [hy])]
      simp only [List.find?, hy] at h ⊢
      exact find?_replaceFirstBy_self ha h

theorem find?_replaceFirstBy_ne {key : α → Nat} {k k' : Nat} {a : α}
    (ha : key a = k') (hk : k' ≠ k) :
    ∀ {l : List α},
      (replaceFirstBy key k' a l).find? (fun y => key y == k) =
        l.find? (fun y => key y == k)
  | [] => rfl
  | y :: ys => by
    cases hy : key y == k' with
    | true =>
      rw [replaceFirstBy, if_pos hy]
      have hyk : (key y == k) = false := by
        have hyy : key y = k' := by simpa using hy
        simp [hyy, hk]
      have hak : (key a == k) = false := by simp [ha, hk]
      simp only [List.find?, hyk, hak]
    | false =>
      rw [replaceFirstBy, if_neg (by simp [hy])]
      cases hyk : key y == k with
      | true => simp only [List.find?, hyk]
      | false =>
        simp only [List.find?, hyk]
        exact find?_replaceFirstBy_ne ha hk

theorem find?_removeFirstBy_ne {key : α → Nat} {k k' : Nat} (hk : k' ≠ k) :
    ∀ {l : List α},
      (removeFirstBy key k' l).find? (fun y => key y == k) =
        l.find? (fun y => key y == k)
  | [] => rfl
  | y :: ys => by
    cases hy : key y == k' with
    | true =>
      rw [removeFirstBy, if_pos hy]
      have hyk : (key y == k) = false := by
        have hyy : key y = k' := by simpa using hy
        simp [hyy, hk]
      simp only [List.find?, hyk]
    | false =>
      rw [removeFirstBy, if_neg (by simp [hy])]
      cases hyk : key y == k with
      | true => simp only [List.find?, hyk]
      | false =>
        simp only [List.find?, hyk]
        exact find?_removeFirstBy_ne hk

theorem find?_eq_some_split {p : α → Bool} :
    ∀ {l : List α} {a : α}, l.find? p = some a →
      ∃ l₁ l₂, l = l₁ ++ a :: l₂ ∧ ∀ x ∈ l₁, p x = false
  | [], a, h => by simp at h
  | y :: ys, a, h => by
    cases hy : p y with
    | true =>
      simp only [List.find?, hy] at h
      obtain rfl : y = a := by simpa using h
      exact ⟨[], ys, rfl, by simp⟩
    | false =>
      simp only [List.find?, hy] at h
      obtain ⟨l₁, l₂, hl, hpre⟩ := find?_eq_some_split h
      refine ⟨y :: l₁, l₂, by simp [hl], ?_⟩
      intro x hx
      rcases List.mem_cons.mp hx with rfl | hx
      · exact hy
      · exact hpre x hx

theorem find?_append_of_left {p : α → Bool} {l₁ l₂ : List α} {a : α}
    (h : l₁.find? p = some a) : (l₁ ++ l₂).find? p = some a := by
  rw [List.find?_append, h]; rfl

end PMAgent

namespace PMAgent

theorem mkTasks_length (c : Nat) :
    ∀ (n : Nat) (ps : List (String × String)), (mkTasks n c ps).length = ps.length
  | _, [] => rfl
  | n, p :: ps => by simp [mkTasks, mkTasks_length c (n + 1) ps]

theorem mkTasks_map_title (c : Nat) :
    ∀ (n : Nat) (ps : List (String × String)),
      (mkTasks n c ps).map Task.title = ps.map Prod.fst
  | _, [] => rfl
  | n, p :: ps => by simp [mkTasks, mkTask, mkTasks_map_title c (n + 1) ps]

theorem mkTasks_fresh (c : Nat) :
    ∀ {n : Nat} {ps : List (String × String)} {t : Task}, t ∈ mkTasks n c ps →
      t.status = TStatus.PENDING ∧ t.approved = false
  | _, [], t, h => by simp [mkTasks] at h
  | n, p :: ps, t, h => by
    rcases List.mem_cons.mp h with rfl | h
    · exact ⟨rfl, rfl⟩
    · exact mkTasks_fresh c h

theorem request_planning_ok {s : PlannerState} {orig : Option String}
    {ts : List TaskInput} {sd : Option String} {s' : PlannerState} {out : Output}
    (h : request_planning s orig ts sd = .ok (s', out)) :
    ∃ o pairs, orig = some o ∧ ts ≠ [] ∧ normalizeTasks ts = .ok pairs ∧
      out = .planned s.nextId (mkTasks (s.nextId + 1) s.clock pairs).length
              (renderProgressTable (mkTasks (s.nextId + 1) s.clock pairs)) ∧
      s' = { requests := s.requests ++
               [{ id := s.nextId, originalRequest := o, splitDetails := sd,
                  tasks := mkTasks (s.nextId + 1) s.clock pairs,
                  status := RStatus.PENDING,
                  createdAt := s.clock, updatedAt := s.clock }],
             nextId := s.nextId + 1 + pairs.length, clock := s.clock + 1 } := by
  cases orig with
  | none => simp [request_planning] at h
  | some o =>
    cases hts : ts.isEmpty with
    | true => simp [request_planning, hts] at h
    | false =>
      cases hn : normalizeTasks ts with
      | error e => simp [request_planning, hts, hn] at h
      | ok pairs =>
        simp only [request_planning, hts, hn, Bool.false_eq_true,
          if_false, Except.ok.injEq, Prod.mk.injEq] at h
        exact ⟨o, pairs, rfl, by simpa using hts, rfl, h.2.symm, h.1.symm⟩

theorem mark_task_done_ok {s : PlannerState} {rid tid : Nat}
    {cd : Option String} {s' : PlannerState} {out : Output}
    (h : mark_task_done s rid tid cd = .ok (s', out)) :
    ∃ r t, findRequest s rid = some r ∧ findTask r tid = some t ∧
      (t.status == TStatus.DONE) = false ∧ out = .markedDone ∧
      s' = putRequest s rid (setTasks r
        (replaceFirstBy Task.id tid (markedTask s.clock cd t) r.tasks) s.clock) := by
  cases hr : findRequest s rid with
  | none => simp [mark_task_done, hr] at h
  | some r =>
    cases ht : findTask r tid with
    | none => simp [mark_task_done, hr, ht] at h
    | some t =>
      cases hd : t.status == TStatus.DONE with
      | true => simp [mark_task_done, hr, ht, hd] at h
      | false =>
        simp only [mark_task_done, hr, ht, hd, Bool.false_eq_true, if_false,
          Except.ok.injEq, Prod.mk.injEq] at h
        exact ⟨r, t, rfl, ht, hd, h.2.symm, h.1.symm⟩

theorem approve_task_completion_ok {s : PlannerState} {rid tid : Nat}
    {s' : PlannerState} {out : Output}
    (h : approve_task_completion s rid tid = .ok (s', out)) :
    ∃ r t, findRequest s rid = some r ∧ findTask r tid = some t ∧
      t.status = TStatus.DONE ∧ t.approved = false ∧ out = .taskApproved ∧
      s' = putRequest s rid (setTasks r
        (replaceFirstBy Task.id tid (approvedTask s.clock t) r.tasks) s.clock) := by
  cases hr : findRequest s rid with
  | none => simp [approve_task_completion, hr] at h
  | some r =>
    cases ht : findTask r tid with
    | none => simp [approve_task_completion, hr, ht] at h
    | some t =>
      cases hd : t.status == TStatus.DONE with
      | true =>
        cases ha : t.approved with
        | true => simp [approve_task_completion, hr, ht, hd, ha] at h
        | false =>
          simp only [approve_task_completion, hr, ht, hd, ha, Bool.not_true,
            Bool.false_eq_true, if_false, if_true, Except.ok.injEq,
            Prod.mk.injEq] at h
          exact ⟨r, t, rfl, ht, by simpa using hd, ha, h.2.symm, h.1.symm⟩
      | false => simp [approve_task_completion, hr, ht, hd] at h

theorem approve_request_completion_ok {s : PlannerState} {rid : Nat}
    {s' : PlannerState} {out : Output}
    (h : approve_request_completion s rid = .ok (s', out)) :
    ∃ r, findRequest s rid = some r ∧ notDoneApproved r = [] ∧
      out = .requestApproved ∧
      s' = putRequest s rid (completedRequest s.clock r) := by
  cases hr : findRequest s rid with
  | none => simp [approve_request_completion, hr] at h
  | some r =>
    cases hb : notDoneApproved r with
    | nil =>
      simp only [approve_request_completion, hr, hb, Except.ok.injEq,
        Prod.mk.injEq] at h
      exact ⟨r, rfl, hb, h.2.symm, h.1.symm⟩
    | cons b bs => simp [approve_request_completion, hr, hb] at h

theorem add_tasks_to_request_ok {s : PlannerState} {rid : Nat}
    {ts : List TaskInput} {s' : PlannerState} {out : Output}
    (h : add_tasks_to_request s rid ts = .ok (s', out)) :
    ∃ r pairs, findRequest s rid = some r ∧
      (r.status == RStatus.COMPLETED) = false ∧ normalizeTasks ts = .ok pairs ∧
      out = .tasksAdded (mkTasks s.nextId s.clock pairs).length ∧
      s' = { putRequest s rid
               (setTasks r (r.tasks ++ mkTasks s.nextId s.clock pairs) s.clock)
             with nextId := s.nextId + pairs.length } := by
  cases hr : findRequest s rid with
  | none => simp [add_tasks_to_request, hr] at h
  | some r =>
    cases hc : r.status == RStatus.COMPLETED with
    | true => simp [add_tasks_to_request, hr, hc] at h
    | false =>
      cases hn : normalizeTasks ts with
      | error e => simp [add_tasks_to_request, hr, hc, hn] at h
      | ok pairs =>
        simp only [add_tasks_to_request, hr, hc, hn, Bool.false_eq_true,
          if_false, Except.ok.injEq, Prod.mk.injEq] at h
        exact ⟨r, pairs, rfl, hc, rfl, h.2.symm, h.1.symm⟩

theorem update_task_ok {s : PlannerState} {rid tid : Nat}
    {ti de : Option String} {s' : PlannerState} {out : Output}
    (h : update_task s rid tid ti de = .ok (s', out)) :
    ∃ r t, findRequest s rid = some r ∧ findTask r tid = some t ∧
      (t.status == TStatus.DONE) = false ∧ out = .taskUpdated ∧
      s' = putRequest s rid (setTasks r
        (replaceFirstBy Task.id tid (updatedTask s.clock ti de t) r.tasks) s.clock) := by
  cases hr : findRequest s rid with
  | none => simp [update_task, hr] at h
  | some r =>
    cases ht : findTask r tid with
    | none => simp [update_task, hr, ht] at h
    | some t =>
      cases hd : t.status == TStatus.DONE with
      | true => simp [update_task, hr, ht, hd] at h
      | false =>
        simp only [update_task, hr, ht, hd, Bool.false_eq_true, if_false,
          Except.ok.injEq, Prod.mk.injEq] at h
        exact ⟨r, t, rfl, ht, hd, h.2.symm, h.1.symm⟩

theorem delete_task_ok {s : PlannerState} {rid tid : Nat}
    {s' : PlannerState} {out : Output}
    (h : delete_task s rid tid = .ok (s', out)) :
    ∃ r t, findRequest s rid = some r ∧ findTask r tid = some t ∧
      (t.status == TStatus.DONE) = false ∧ out = .taskDeleted ∧
      s' = putRequest s rid (setTasks r (removeFirstBy Task.id tid r.tasks) s.clock) := by
  cases hr : findRequest s rid with
  | none => simp [delete_task, hr] at h
  | some r =>
    cases ht : findTask r tid with
    | none => simp [delete_task, hr, ht] at h
    | some t =>
      cases hd : t.status == TStatus.DONE with
      | true => simp [delete_task, hr, ht, hd] at h
      | false =>
        simp only [delete_task, hr, ht, hd, Bool.false_eq_true, if_false,
          Except.ok.injEq, Prod.mk.injEq] at h
        exact ⟨r, t, rfl, ht, hd, h.2.symm, h.1.symm⟩

end PMAgent

namespace PMAgent

theorem mark_task_done_on_done {s : PlannerState} {rid tid : Nat}
    {r : Request} {t : Task} (cd : Option String)
    (hr : findRequest s rid = some r) (ht : findTask r tid = some t)
    (hd : t.status = TStatus.DONE) :
    mark_task_done s rid tid cd =
      .error (.invalidStateError "task is already done" [t.id]) := by
  simp [mark_task_done, hr, ht, hd]

theorem update_task_on_done {s : PlannerState} {rid tid : Nat}
    {r : Request} {t : Task} (ti de : Option String)
    (hr : findRequest s rid = some r) (ht : findTask r tid = some t)
    (hd : t.status = TStatus.DONE) :
    update_task s rid tid ti de =
      .error (.invalidStateError "a done task cannot be updated" [t.id]) := by
  simp [update_task, hr, ht, hd]

theorem delete_task_on_done {s : PlannerState} {rid tid : Nat}
    {r : Request} {t : Task}
    (hr : findRequest s rid = some r) (ht : findTask r tid = some t)
    (hd : t.status = TStatus.DONE) :
    delete_task s rid tid =
      .error (.invalidStateError "a done task cannot be deleted" [t.id]) := by
  simp [delete_task, hr, ht, hd]

theorem approve_task_completion_not_done {s : PlannerState} {rid tid : Nat}
    {r : Request} {t : Task}
    (hr : findRequest s rid = some r) (ht : findTask r tid = some t)
    (hd : t.status ≠ TStatus.DONE) :
    approve_task_completion s rid tid =
      .error (.invalidStateError "task is not done yet" [t.id]) := by
  have hd' : (t.status == TStatus.DONE) = false := by
    cases hst : t.status
    · rfl
    · exact absurd hst hd
  simp [approve_task_completion, hr, ht, hd']

theorem approve_task_completion_already {s : PlannerState} {rid tid : Nat}
    {r : Request} {t : Task}
    (hr : findRequest s rid = some r) (ht : findTask r tid = some t)
    (hd : t.status = TStatus.DONE) (ha : t.approved = true) :
    approve_task_completion s rid tid =
      .error (.invalidStateError "task is already approved" [t.id]) := by
  simp [approve_task_completion, hr, ht, hd, ha]

theorem approve_request_completion_fails {s : PlannerState} {rid : Nat}
    {r : Request}
    (hr : findRequest s rid = some r) (hbad : notDoneApproved r ≠ []) :
    approve_request_completion s rid =
      .error (.invalidStateError "tasks not yet done or approved"
        ((notDoneApproved r).map Task.id)) := by
  cases hb : notDoneApproved r with
  | nil => exact absurd hb hbad
  | cons b bs => simp [approve_request_completion, hr, hb]

theorem approve_request_completion_notfound {s : PlannerState} {rid : Nat}
    (hr : findRequest s rid = none) :
    approve_request_completion s rid = .error (.notFoundError "request not found") := by
  simp [approve_request_completion, hr]

theorem get_next_task_notfound {s : PlannerState} {rid : Nat}
    (hr : findRequest s rid = none) :
    get_next_task s rid = .error (.notFoundError "request not found") := by
  simp [get_next_task, hr]

theorem get_next_task_found {s : PlannerState} {rid : Nat} {r : Request}
    (hr : findRequest s rid = some r) :
    get_next_task s rid = .ok (.next (nextTaskResultOf r)) := by
  simp [get_next_task, hr]

theorem applyOp_cases (s : PlannerState) (op : Op) :
    (∃ s' out, opRun s op = .ok (s', out) ∧ applyOp s op = s' ∧
      (step s op).2 = .success out) ∨
    (∃ e, opRun s op = .error e ∧ applyOp s op = s ∧
      (step s op).2 = .failure (errMessage e)) := by
  cases h : opRun s op with
  | ok p =>
    obtain ⟨s', out⟩ := p
    exact Or.inl ⟨s', out, rfl, by simp [applyOp, step, h], by simp [step, h]⟩
  | error e =>
    exact Or.inr ⟨e, rfl, by simp [applyOp, step, h], by simp [step, h]⟩

theorem opRun_getNextTask_ok {s : PlannerState} {rid : Nat}
    {s' : PlannerState} {out : Output}
    (h : opRun s (.getNextTask rid) = .ok (s', out)) :
    s' = s ∧ get_next_task s rid = .ok out := by
  cases hg : get_next_task s rid with
  | ok o =>
    simp only [opRun, hg, Except.map, Except.ok.injEq, Prod.mk.injEq] at h
    exact ⟨h.1.symm, by rw [h.2]⟩
  | error e => simp [opRun, hg, Except.map] at h

theorem opRun_openTaskDetails_ok {s : PlannerState} {tid : Nat}
    {s' : PlannerState} {out : Output}
    (h : opRun s (.openTaskDetails tid) = .ok (s', out)) :
    s' = s ∧ open_task_details s tid = .ok out := by
  cases hg : open_task_details s tid with
  | ok o =>
    simp only [opRun, hg, Except.map, Except.ok.injEq, Prod.mk.injEq] at h
    exact ⟨h.1.symm, by rw [h.2]⟩
  | error e => simp [opRun, hg, Except.map] at h

theorem opRun_listRequests_ok {s : PlannerState}
    {s' : PlannerState} {out : Output}
    (h : opRun s .listRequests = .ok (s', out)) :
    s' = s ∧ out = .listed (list_requests s) := by
  simp only [opRun, Except.ok.injEq, Prod.mk.injEq] at h
  exact ⟨h.1.symm, h.2.symm⟩

theorem mem_putRequest {s : PlannerState} {rid : Nat} {r' q : Request}
    (h : q ∈ (putRequest s rid r').requests) : q = r' ∨ q ∈ s.requests := by
  simp only [putRequest] at h
  exact mem_replaceFirstBy h

end PMAgent

namespace PMAgent

theorem notDoneApproved_nil {r : Request} (h : notDoneApproved r = []) :
    ∀ t ∈ r.tasks, t.status = TStatus.DONE ∧ t.approved = true := by
  intro t ht
  have hf := List.filter_eq_nil_iff.mp h t ht
  simp only [Bool.not_eq_true', Bool.not_eq_false] at hf
  have := Bool.and_eq_true .. |>.mp hf
  exact ⟨by simpa using this.1, this.2⟩

theorem approvedInv_applyOp (op : Op) {s : PlannerState} (hs : ApprovedInv s) :
    ApprovedInv (applyOp s op) := by
  rcases applyOp_cases s op with ⟨s', out, hok, hst, _⟩ | ⟨e, _, hst, _⟩
  case inr => rwa [hst]
  rw [hst]
  cases op with
  | requestPlanning orig ts sd =>
    simp only [opRun] at hok
    obtain ⟨o, pairs, _, _, _, _, hs'⟩ := request_planning_ok hok
    subst hs'
    intro q hq t ht happ
    rcases List.mem_append.mp hq with hq | hq
    · exact hs q hq t ht happ
    · simp only [List.mem_singleton] at hq
      subst hq
      have := (mkTasks_fresh s.clock ht).2
      rw [happ] at this
      cases this
  | getNextTask rid =>
    simp only [(opRun_getNextTask_ok hok).1]
    exact hs
  | markTaskDone rid tid cd =>
    simp only [opRun] at hok
    obtain ⟨r, t, hr, ht, hd, _, hs'⟩ := mark_task_done_ok hok
    subst hs'
    intro q hq u hu happ
    rcases mem_putRequest hq with rfl | hq
    · simp only [setTasks] at hu
      rcases mem_replaceFirstBy hu with rfl | hu
      · rfl
      · exact hs r (List.mem_of_find?_eq_some hr) u hu happ
    · exact hs q hq u hu happ
  | approveTaskCompletion rid tid =>
    simp only [opRun] at hok
    obtain ⟨r, t, hr, ht, hd, _, _, hs'⟩ := approve_task_completion_ok hok
    subst hs'
    intro q hq u hu happ
    rcases mem_putRequest hq with rfl | hq
    · simp only [setTasks] at hu
      rcases mem_replaceFirstBy hu with rfl | hu
      · simpa [approvedTask] using hd
      · exact hs r (List.mem_of_find?_eq_some hr) u hu happ
    · exact hs q hq u hu happ
  | approveRequestCompletion rid =>
    simp only [opRun] at hok
    obtain ⟨r, hr, hall, _, hs'⟩ := approve_request_completion_ok hok
    subst hs'
    intro q hq u hu happ
    rcases mem_putRequest hq with rfl | hq
    · simp only [completedRequest] at hu
      exact hs r (List.mem_of_find?_eq_some hr) u hu happ
    · exact hs q hq u hu happ
  | addTasksToRequest rid ts =>
    simp only [opRun] at hok
    obtain ⟨r, pairs, hr, hc, hn, _, hs'⟩ := add_tasks_to_request_ok hok
    subst hs'
    intro q hq u hu happ
    have hq' : q ∈ (putRequest s rid
        (setTasks r (r.tasks ++ mkTasks s.nextId s.clock pairs) s.clock)).requests := hq
    rcases mem_putRequest hq' with rfl | hq''
    · simp only [setTasks] at hu
      rcases List.mem_append.mp hu with hu | hu
      · exact hs r (List.mem_of_find?_eq_some hr) u hu happ
      · have := (mkTasks_fresh s.clock hu).2
        rw [happ] at this
        cases this
    · exact hs q hq'' u hu happ
  | updateTask rid tid ti de =>
    simp only [opRun] at hok
    obtain ⟨r, t, hr, ht, hd, _, hs'⟩ := update_task_ok hok
    subst hs'
    intro q hq u hu happ
    rcases mem_putRequest hq with rfl | hq
    · simp only [setTasks] at hu
      rcases mem_replaceFirstBy hu with rfl | hu
      · have := hs r (List.mem_of_find?_eq_some hr) t
          (List.mem_of_find?_eq_some ht) (by simpa [updatedTask] using happ)
        simpa [updatedTask] using this
      · exact hs r (List.mem_of_find?_eq_some hr) u hu happ
    · exact hs q hq u hu happ
  | deleteTask rid tid =>
    simp only [opRun] at hok
    obtain ⟨r, t, hr, ht, hd, _, hs'⟩ := delete_task_ok hok
    subst hs'
    intro q hq u hu happ
    rcases mem_putRequest hq with rfl | hq
    · simp only [setTasks] at hu
      exact hs r (List.mem_of_find?_eq_some hr) u (mem_removeFirstBy hu) happ
    · exact hs q hq u hu happ
  | listRequests =>
    simp only [(opRun_listRequests_ok hok).1]
    exact hs
  | openTaskDetails tid =>
    simp only [(opRun_openTaskDetails_ok hok).1]
    exact hs

end PMAgent

namespace PMAgent

theorem completedInv_applyOp (op : Op) {s : PlannerState} (hs : CompletedInv s) :
    CompletedInv (applyOp s op) := by
  rcases applyOp_cases s op with ⟨s', out, hok, hst, _⟩ | ⟨e, _, hst, _⟩
  case inr => rwa [hst]
  rw [hst]
  cases op with
  | requestPlanning orig ts sd =>
    simp only [opRun] at hok
    obtain ⟨o, pairs, _, _, _, _, hs'⟩ := request_planning_ok hok
    subst hs'
    intro q hq hqc
    rcases List.mem_append.mp hq with hq | hq
    · exact hs q hq hqc
    · simp only [List.mem_singleton] at hq
      subst hq
      cases hqc
  | getNextTask rid =>
    simp only [(opRun_getNextTask_ok hok).1]
    exact hs
  | markTaskDone rid tid cd =>
    simp only [opRun] at hok
    obtain ⟨r, t, hr, ht, hd, _, hs'⟩ := mark_task_done_ok hok
    subst hs'
    intro q hq hqc
    rcases mem_putRequest hq with rfl | hq
    · have hrc : r.status = RStatus.COMPLETED := by simpa [setTasks] using hqc
      have := (hs r (List.mem_of_find?_eq_some hr) hrc t
        (List.mem_of_find?_eq_some ht)).1
      rw [this] at hd
      cases hd
    · exact hs q hq hqc
  | approveTaskCompletion rid tid =>
    simp only [opRun] at hok
    obtain ⟨r, t, hr, ht, hd, ha, _, hs'⟩ := approve_task_completion_ok hok
    subst hs'
    intro q hq hqc
    rcases mem_putRequest hq with rfl | hq
    · have hrc : r.status = RStatus.COMPLETED := by simpa [setTasks] using hqc
      intro u hu
      simp only [setTasks] at hu
      rcases mem_replaceFirstBy hu with rfl | hu
      · exact ⟨by simpa [approvedTask] using hd, rfl⟩
      · exact hs r (List.mem_of_find?_eq_some hr) hrc u hu
    · exact hs q hq hqc
  | approveRequestCompletion rid =>
    simp only [opRun] at hok
    obtain ⟨r, hr, hall, _, hs'⟩ := approve_request_completion_ok hok
    subst hs'
    intro q hq hqc
    rcases mem_putRequest hq with rfl | hq
    · intro u hu
      simp only [completedRequest] at hu
      exact notDoneApproved_nil hall u hu
    · exact hs q hq hqc
  | addTasksToRequest rid ts =>
    simp only [opRun] at hok
    obtain ⟨r, pairs, hr, hc, hn, _, hs'⟩ := add_tasks_to_request_ok hok
    subst hs'
    intro q hq hqc
    have hq' : q ∈ (putRequest s rid
        (setTasks r (r.tasks ++ mkTasks s.nextId s.clock pairs) s.clock)).requests := hq
    rcases mem_putRequest hq' with rfl | hq''
    · have hrc : r.status = RStatus.COMPLETED := by simpa [setTasks] using hqc
      rw [hrc] at hc
      simp at hc
    · exact hs q hq'' hqc
  | updateTask rid tid ti de =>
    simp only [opRun] at hok
    obtain ⟨r, t, hr, ht, hd, _, hs'⟩ := update_task_ok hok
    subst hs'
    intro q hq hqc
    rcases mem_putRequest hq with rfl | hq
    · have hrc : r.status = RStatus.COMPLETED := by simpa [setTasks] using hqc
      have := (hs r (List.mem_of_find?_eq_some hr) hrc t
        (List.mem_of_find?_eq_some ht)).1
      rw [this] at hd
      cases hd
    · exact hs q hq hqc
  | deleteTask rid tid =>
    simp only [opRun] at hok
    obtain ⟨r, t, hr, ht, hd, _, hs'⟩ := delete_task_ok hok
    subst hs'
    intro q hq hqc
    rcases mem_putRequest hq with rfl | hq
    · have hrc : r.status = RStatus.COMPLETED := by simpa [setTasks] using hqc
      have := (hs r (List.mem_of_find?_eq_some hr) hrc t
        (List.mem_of_find?_eq_some ht)).1
      rw [this] at hd
      cases hd
    · exact hs q hq hqc
  | listRequests =>
    simp only [(opRun_listRequests_ok hok).1]
    exact hs
  | openTaskDetails tid =>
    simp only [(opRun_openTaskDetails_ok hok).1]
    exact hs

theorem approvedInv_runOps {s : PlannerState} (hs : ApprovedInv s) :
    ∀ ops : List Op, ApprovedInv (runOps s ops)
  | [] => hs
  | op :: ops => approvedInv_runOps (approvedInv_applyOp op hs) ops

theorem completedInv_runOps {s : PlannerState} (hs : CompletedInv s) :
    ∀ ops : List Op, CompletedInv (runOps s ops)
  | [] => hs
  | op :: ops => completedInv_runOps (completedInv_applyOp op hs) ops

theorem approvedInv_initState : ApprovedInv initState := by
  intro r hr
  simp [initState] at hr

theorem completedInv_initState : CompletedInv initState := by
  intro r hr
  simp [initState] at hr

/-- No operation other than `approve_request_completion` ever produces a
newly `COMPLETED` request: a completed request in the next state was already
completed (same id) in the previous one. -/
theorem completed_only_by_approval (s : PlannerState) (op : Op)
    (hop : ∀ rid, op ≠ Op.approveRequestCompletion rid) {q : Request}
    (hq : q ∈ (applyOp s op).requests) (hqc : q.status = RStatus.COMPLETED) :
    ∃ r ∈ s.requests, r.id = q.id ∧ r.status = RStatus.COMPLETED := by
  rcases applyOp_cases s op with ⟨s', out, hok, hst, _⟩ | ⟨e, _, hst, _⟩
  case inr =>
    rw [hst] at hq
    exact ⟨q, hq, rfl, hqc⟩
  rw [hst] at hq
  cases op with
  | requestPlanning orig ts sd =>
    simp only [opRun] at hok
    obtain ⟨o, pairs, _, _, _, _, hs'⟩ := request_planning_ok hok
    subst hs'
    rcases List.mem_append.mp hq with hq | hq
    · exact ⟨q, hq, rfl, hqc⟩
    · simp only [List.mem_singleton] at hq
      subst hq
      cases hqc
  | getNextTask rid =>
    rw [(opRun_getNextTask_ok hok).1] at hq
    exact ⟨q, hq, rfl, hqc⟩
  | markTaskDone rid tid cd =>
    simp only [opRun] at hok
    obtain ⟨r, t, hr, ht, hd, _, hs'⟩ := mark_task_done_ok hok
    subst hs'
    rcases mem_putRequest hq with rfl | hq
    · exact ⟨r, List.mem_of_find?_eq_some hr, rfl, by simpa [setTasks] using hqc⟩
    · exact ⟨q, hq, rfl, hqc⟩
  | approveTaskCompletion rid tid =>
    simp only [opRun] at hok
    obtain ⟨r, t, hr, ht, hd, ha, _, hs'⟩ := approve_task_completion_ok hok
    subst hs'
    rcases mem_putRequest hq with rfl | hq
    · exact ⟨r, List.mem_of_find?_eq_some hr, rfl, by simpa [setTasks] using hqc⟩
    · exact ⟨q, hq, rfl, hqc⟩
  | approveRequestCompletion rid =>
    exact absurd rfl (hop rid)
  | addTasksToRequest rid ts =>
    simp only [opRun] at hok
    obtain ⟨r, pairs, hr, hc, hn, _, hs'⟩ := add_tasks_to_request_ok hok
    subst hs'
    have hq' : q ∈ (putRequest s rid
        (setTasks r (r.tasks ++ mkTasks s.nextId s.clock pairs) s.clock)).requests := hq
    rcases mem_putRequest hq' with rfl | hq''
    · exact ⟨r, List.mem_of_find?_eq_some hr, rfl, by simpa [setTasks] using hqc⟩
    · exact ⟨q, hq'', rfl, hqc⟩
  | updateTask rid tid ti de =>
    simp only [opRun] at hok
    obtain ⟨r, t, hr, ht, hd, _, hs'⟩ := update_task_ok hok
    subst hs'
    rcases mem_putRequest hq with rfl | hq
    · exact ⟨r, List.mem_of_find?_eq_some hr, rfl, by simpa [setTasks] using hqc⟩
    · exact ⟨q, hq, rfl, hqc⟩
  | deleteTask rid tid =>
    simp only [opRun] at hok
    obtain ⟨r, t, hr, ht, hd, _, hs'⟩ := delete_task_ok hok
    subst hs'
    rcases mem_putRequest hq with rfl | hq
    · exact ⟨r, List.mem_of_find?_eq_some hr, rfl, by simpa [setTasks] using hqc⟩
    · exact ⟨q, hq, rfl, hqc⟩
  | listRequests =>
    rw [(opRun_listRequests_ok hok).1] at hq
    exact ⟨q, hq, rfl, hqc⟩
  | openTaskDetails tid =>
    rw [(opRun_openTaskDetails_ok hok).1] at hq
    exact ⟨q, hq, rfl, hqc⟩

end PMAgent

namespace PMAgent

theorem findRequest_putRequest_self {s : PlannerState} {rid : Nat}
    {r₂ r' : Request} (h2 : findRequest s rid = some r₂) (hid : r'.id = r₂.id) :
    findRequest (putRequest s rid r') rid = some r' := by
  have hk : r₂.id = rid := by simpa using List.find?_some h2
  simp only [findRequest, putRequest] at h2 ⊢
  exact find?_replaceFirstBy_self (by rw [hid, hk]) h2

theorem findRequest_putRequest_ne {s : PlannerState} {rid2 : Nat}
    {r' : Request} (rid : Nat) (hid : r'.id = rid2) (hne : rid2 ≠ rid) :
    findRequest (putRequest s rid2 r') rid = findRequest s rid := by
  simp only [findRequest, putRequest]
  exact find?_replaceFirstBy_ne hid hne

theorem findRequest_append {s : PlannerState} {rid : Nat} {r : Request}
    (h : findRequest s rid = some r) (l : List Request) (n c : Nat) :
    findRequest { requests := s.requests ++ l, nextId := n, clock := c } rid
      = some r := by
  simp only [findRequest] at h ⊢
  exact find?_append_of_left h


/-- No operation moves a task from `DONE` back to `PENDING`: whatever
operation is dispatched, the task found under (`rid`, `tid`) afterwards is
still `DONE` if it was `DONE` before. -/
theorem done_stays_done (s : PlannerState) (op : Op) {rid tid : Nat}
    {r : Request} {t : Task}
    (hr : findRequest s rid = some r) (ht : findTask r tid = some t)
    (hd : t.status = TStatus.DONE)
    {r' : Request} {t' : Task}
    (hr' : findRequest (applyOp s op) rid = some r')
    (ht' : findTask r' tid = some t') :
    t'.status = TStatus.DONE := by
  rcases applyOp_cases s op with ⟨s', out, hok, hst, _⟩ | ⟨e, _, hst, _⟩
  case inr =>
    rw [hst, hr] at hr'
    obtain rfl : r = r' := by injection hr'
    rw [ht] at ht'
    obtain rfl : t = t' := by injection ht'
    exact hd
  rw [hst] at hr'
  cases op with
  | requestPlanning orig ts sd =>
    simp only [opRun] at hok
    obtain ⟨o, pairs, _, _, _, _, hs'⟩ := request_planning_ok hok
    subst hs'
    rw [findRequest_append hr _ _ _] at hr'
    obtain rfl : r = r' := by injection hr'
    rw [ht] at ht'
    obtain rfl : t = t' := by injection ht'
    exact hd
  | getNextTask rid2 =>
    rw [(opRun_getNextTask_ok hok).1, hr] at hr'
    obtain rfl : r = r' := by injection hr'
    rw [ht] at ht'
    obtain rfl : t = t' := by injection ht'
    exact hd
  | markTaskDone rid2 tid2 cd =>
    simp only [opRun] at hok
    obtain ⟨r₂, t₂, hr₂, ht₂, hd₂, _, hs'⟩ := mark_task_done_ok hok
    subst hs'
    have hkr : r₂.id = rid2 := by simpa using List.find?_some hr₂
    have hkt : t₂.id = tid2 := by simpa using List.find?_some ht₂
    by_cases hrr : rid2 = rid
    · subst hrr
      rw [hr] at hr₂
      obtain rfl : r = r₂ := by injection hr₂
      rw [findRequest_putRequest_self hr (by simp [setTasks])] at hr'
      obtain rfl : r' = setTasks r
          (replaceFirstBy Task.id tid2 (markedTask s.clock cd t₂) r.tasks)
          s.clock := by injection hr' with h; exact h.symm
      by_cases htt : tid2 = tid
      · subst htt
        rw [ht] at ht₂
        obtain rfl : t = t₂ := by injection ht₂
        rw [hd] at hd₂
        cases hd₂
      · have hidm : (markedTask s.clock cd t₂).id = tid2 := by
          simp only [markedTask]
          exact hkt
        simp only [findTask, setTasks] at ht'
        rw [find?_replaceFirstBy_ne hidm htt] at ht'
        simp only [findTask] at ht
        rw [ht] at ht'
        obtain rfl : t = t' := by injection ht'
        exact hd
    · have hids : (setTasks r₂
          (replaceFirstBy Task.id tid2 (markedTask s.clock cd t₂) r₂.tasks)
          s.clock).id = rid2 := by
        simp only [setTasks]
        exact hkr
      rw [findRequest_putRequest_ne rid hids hrr, hr] at hr'
      obtain rfl : r = r' := by injection hr'
      rw [ht] at ht'
      obtain rfl : t = t' := by injection ht'
      exact hd
  | approveTaskCompletion rid2 tid2 =>
    simp only [opRun] at hok
    obtain ⟨r₂, t₂, hr₂, ht₂, hd₂, ha₂, _, hs'⟩ := approve_task_completion_ok hok
    subst hs'
    have hkr : r₂.id = rid2 := by simpa using List.find?_some hr₂
    have hkt : t₂.id = tid2 := by simpa using List.find?_some ht₂
    by_cases hrr : rid2 = rid
    · subst hrr
      rw [hr] at hr₂
      obtain rfl : r = r₂ := by injection hr₂
      rw [findRequest_putRequest_self hr (by simp [setTasks])] at hr'
      obtain rfl : r' = setTasks r
          (replaceFirstBy Task.id tid2 (approvedTask s.clock t₂) r.tasks)
          s.clock := by injection hr' with h; exact h.symm
      have hida : (approvedTask s.clock t₂).id = tid2 := by
        simp only [approvedTask]
        exact hkt
      by_cases htt : tid2 = tid
      · subst htt
        rw [ht] at ht₂
        obtain rfl : t = t₂ := by injection ht₂
        simp only [findTask, setTasks] at ht'
        simp only [findTask] at ht
        rw [find?_replaceFirstBy_self hida ht] at ht'
        obtain rfl : approvedTask s.clock t = t' := by injection ht'
        simp only [approvedTask]
        exact hd
      · simp only [findTask, setTasks] at ht'
        rw [find?_replaceFirstBy_ne hida htt] at ht'
        simp only [findTask] at ht
        rw [ht] at ht'
        obtain rfl : t = t' := by injection ht'
        exact hd
    · have hids : (setTasks r₂
          (replaceFirstBy Task.id tid2 (approvedTask s.clock t₂) r₂.tasks)
          s.clock).id = rid2 := by
        simp only [setTasks]
        exact hkr
      rw [findRequest_putRequest_ne rid hids hrr, hr] at hr'
      obtain rfl : r = r' := by injection hr'
      rw [ht] at ht'
      obtain rfl : t = t' := by injection ht'
      exact hd
  | approveRequestCompletion rid2 =>
    simp only [opRun] at hok
    obtain ⟨r₂, hr₂, hall, _, hs'⟩ := approve_request_completion_ok hok
    subst hs'
    have hkr : r₂.id = rid2 := by simpa using List.find?_some hr₂
    by_cases hrr : rid2 = rid
    · subst hrr
      rw [hr] at hr₂
      obtain rfl : r = r₂ := by injection hr₂
      rw [findRequest_putRequest_self hr (by simp [completedRequest])] at hr'
      obtain rfl : r' = completedRequest s.clock r := by
        injection hr' with h; exact h.symm
      simp only [findTask, completedRequest] at ht'
      simp only [findTask] at ht
      rw [ht] at ht'
      obtain rfl : t = t' := by injection ht'
      exact hd
    · have hids : (completedRequest s.clock r₂).id = rid2 := by
        simp only [completedRequest]
        exact hkr
      rw [findRequest_putRequest_ne rid hids hrr, hr] at hr'
      obtain rfl : r = r' := by injection hr'
      rw [ht] at ht'
      obtain rfl : t = t' := by injection ht'
      exact hd
  | addTasksToRequest rid2 ts =>
    simp only [opRun] at hok
    obtain ⟨r₂, pairs, hr₂, hc₂, hn₂, _, hs'⟩ := add_tasks_to_request_ok hok
    subst hs'
    have hkr : r₂.id = rid2 := by simpa using List.find?_some hr₂
    have hreq : findRequest { putRequest s rid2
        (setTasks r₂ (r₂.tasks ++ mkTasks s.nextId s.clock pairs) s.clock)
        with nextId := s.nextId + pairs.length } rid
        = findRequest (putRequest s rid2
            (setTasks r₂ (r₂.tasks ++ mkTasks s.nextId s.clock pairs) s.clock)) rid := rfl
    rw [hreq] at hr'
    by_cases hrr : rid2 = rid
    · subst hrr
      rw [hr] at hr₂
      obtain rfl : r = r₂ := by injection hr₂
      rw [findRequest_putRequest_self hr (by simp [setTasks])] at hr'
      obtain rfl : r' = setTasks r (r.tasks ++ mkTasks s.nextId s.clock pairs)
          s.clock := by injection hr' with h; exact h.symm
      simp only [findTask, setTasks] at ht'
      simp only [findTask] at ht
      rw [find?_append_of_left ht] at ht'
      obtain rfl : t = t' := by injection ht'
      exact hd
    · have hids : (setTasks r₂ (r₂.tasks ++ mkTasks s.nextId s.clock pairs)
          s.clock).id = rid2 := by
        simp only [setTasks]
        exact hkr
      rw [findRequest_putRequest_ne rid hids hrr, hr] at hr'
      obtain rfl : r = r' := by injection hr'
      rw [ht] at ht'
      obtain rfl : t = t' := by injection ht'
      exact hd
  | updateTask rid2 tid2 ti de =>
    simp only [opRun] at hok
    obtain ⟨r₂, t₂, hr₂, ht₂, hd₂, _, hs'⟩ := update_task_ok hok
    subst hs'
    have hkr : r₂.id = rid2 := by simpa using List.find?_some hr₂
    have hkt : t₂.id = tid2 := by simpa using List.find?_some ht₂
    by_cases hrr : rid2 = rid
    · subst hrr
      rw [hr] at hr₂
      obtain rfl : r = r₂ := by injection hr₂
      rw [findRequest_putRequest_self hr (by simp [setTasks])] at hr'
      obtain rfl : r' = setTasks r
          (replaceFirstBy Task.id tid2 (updatedTask s.clock ti de t₂) r.tasks)
          s.clock := by injection hr' with h; exact h.symm
      by_cases htt : tid2 = tid
      · subst htt
        rw [ht] at ht₂
        obtain rfl : t = t₂ := by injection ht₂
        rw [hd] at hd₂
        cases hd₂
      · have hidu : (updatedTask s.clock ti de t₂).id = tid2 := by
          simp only [updatedTask]
          exact hkt
        simp only [findTask, setTasks] at ht'
        rw [find?_replaceFirstBy_ne hidu htt] at ht'
        simp only [findTask] at ht
        rw [ht] at ht'
        obtain rfl : t = t' := by injection ht'
        exact hd
    · have hids : (setTasks r₂
          (replaceFirstBy Task.id tid2 (updatedTask s.clock ti de t₂) r₂.tasks)
          s.clock).id = rid2 := by
        simp only [setTasks]
        exact hkr
      rw [findRequest_putRequest_ne rid hids hrr, hr] at hr'
      obtain rfl : r = r' := by injection hr'
      rw [ht] at ht'
      obtain rfl : t = t' := by injection ht'
      exact hd
  | deleteTask rid2 tid2 =>
    simp only [opRun] at hok
    obtain ⟨r₂, t₂, hr₂, ht₂, hd₂, _, hs'⟩ := delete_task_ok hok
    subst hs'
    have hkr : r₂.id = rid2 := by simpa using List.find?_some hr₂
    by_cases hrr : rid2 = rid
    · subst hrr
      rw [hr] at hr₂
      obtain rfl : r = r₂ := by injection hr₂
      rw [findRequest_putRequest_self hr (by simp [setTasks])] at hr'
      obtain rfl : r' = setTasks r (removeFirstBy Task.id tid2 r.tasks)
          s.clock := by injection hr' with h; exact h.symm
      by_cases htt : tid2 = tid
      · subst htt
        rw [ht] at ht₂
        obtain rfl : t = t₂ := by injection ht₂
        rw [hd] at hd₂
        cases hd₂
      · simp only [findTask, setTasks] at ht'
        rw [find?_removeFirstBy_ne htt] at ht'
        simp only [findTask] at ht
        rw [ht] at ht'
        obtain rfl : t = t' := by injection ht'
        exact hd
    · have hids : (setTasks r₂ (removeFirstBy Task.id tid2 r₂.tasks)
          s.clock).id = rid2 := by
        simp only [setTasks]
        exact hkr
      rw [findRequest_putRequest_ne rid hids hrr, hr] at hr'
      obtain rfl : r = r' := by injection hr'
      rw [ht] at ht'
      obtain rfl : t = t' := by injection ht'
      exact hd
  | listRequests =>
    rw [(opRun_listRequests_ok hok).1, hr] at hr'
    obtain rfl : r = r' := by injection hr'
    rw [ht] at ht'
    obtain rfl : t = t' := by injection ht'
    exact hd
  | openTaskDetails tid2 =>
    rw [(opRun_openTaskDetails_ok hok).1, hr] at hr'
    obtain rfl : r = r' := by injection hr'
    rw [ht] at ht'
    obtain rfl : t = t' := by injection ht'
    exact hd

end PMAgent

namespace PMAgent

/-- C1: in every reachable state, a request's status is `COMPLETED` only if
every one of its tasks is `DONE` and approved (first conjunct); given a
found request, `approve_request_completion` succeeds and marks it
`COMPLETED` exactly when every task is done and approved, and otherwise —
and only then — fails with an `InvalidStateError` listing the tasks not yet
done or approved (second conjunct); and no operation other than
`approve_request_completion` ever makes a request `COMPLETED`, so a
completed request means the operation was called on it (third conjunct). -/
theorem c1_completed_iff_all_done_approved_and_called :
    (∀ ops : List Op, ∀ r ∈ (runOps initState ops).requests,
        r.status = RStatus.COMPLETED →
        ∀ t ∈ r.tasks, t.status = TStatus.DONE ∧ t.approved = true)
    ∧ (∀ (s : PlannerState) (rid : Nat) (r : Request),
        findRequest s rid = some r →
        (notDoneApproved r = [] →
          approve_request_completion s rid =
            .ok (putRequest s rid (completedRequest s.clock r), .requestApproved) ∧
          (completedRequest s.clock r).status = RStatus.COMPLETED)
        ∧ (notDoneApproved r ≠ [] →
          approve_request_completion s rid =
            .error (.invalidStateError "tasks not yet done or approved"
              ((notDoneApproved r).map Task.id))))
    ∧ (∀ (s : PlannerState) (op : Op),
        (∀ rid, op ≠ Op.approveRequestCompletion rid) →
        ∀ q ∈ (applyOp s op).requests, q.status = RStatus.COMPLETED →
        ∃ r ∈ s.requests, r.id = q.id ∧ r.status = RStatus.COMPLETED) := by
  refine ⟨?_, ?_, ?_⟩
  · intro ops r hr hc t ht
    exact completedInv_runOps completedInv_initState ops r hr hc t ht
  · intro s rid r hr
    refine ⟨?_, ?_⟩
    · intro hall
      exact ⟨by simp [approve_request_completion, hr, hall], rfl⟩
    · intro hbad
      exact approve_request_completion_fails hr hbad
  · intro s op hop q hq hc
    exact completed_only_by_approval s op hop hq hc

/-- C1 witness: the two-task §8 scenario ends with its request `COMPLETED`,
and the first conjunct of C1 then yields that its first task is done and
approved. -/
theorem c1_witness : demoTask.status = TStatus.DONE ∧ demoTask.approved = true :=
  c1_completed_iff_all_done_approved_and_called.1 demoOps demoRequest
    (by decide) (by decide) demoTask (by decide)

/-- C2: in every reachable state an approved task is `DONE` (first
conjunct); `approve_task_completion` fails with `InvalidStateError` when
the task is not yet done, and also when it is already approved (second
conjunct); and after a successful approval the second approval call on the
same task always fails — approval is not idempotent (third conjunct).
Together: no operation sequence yields an approved task that is not done. -/
theorem c2_approved_implies_done :
    (∀ ops : List Op, ∀ r ∈ (runOps initState ops).requests,
        ∀ t ∈ r.tasks, t.approved = true → t.status = TStatus.DONE)
    ∧ (∀ (s : PlannerState) (rid tid : Nat) (r : Request) (t : Task),
        findRequest s rid = some r → findTask r tid = some t →
        (t.status ≠ TStatus.DONE →
          approve_task_completion s rid tid =
            .error (.invalidStateError "task is not done yet" [t.id]))
        ∧ (t.status = TStatus.DONE → t.approved = true →
          approve_task_completion s rid tid =
            .error (.invalidStateError "task is already approved" [t.id])))
    ∧ (∀ (s s' : PlannerState) (rid tid : Nat) (out : Output),
        approve_task_completion s rid tid = .ok (s', out) →
        ∃ t' : Task, approve_task_completion s' rid tid =
          .error (.invalidStateError "task is already approved" [t'.id])) := by
  refine ⟨?_, ?_, ?_⟩
  · intro ops r hr t ht happ
    exact approvedInv_runOps approvedInv_initState ops r hr t ht happ
  · intro s rid tid r t hr ht
    exact ⟨fun hnd => approve_task_completion_not_done hr ht hnd,
      fun hd ha => approve_task_completion_already hr ht hd ha⟩
  · intro s s' rid tid out hok
    obtain ⟨r, t, hr, ht, hd, ha, _, hs'⟩ := approve_task_completion_ok hok
    subst hs'
    have hkt : t.id = tid := by simpa using List.find?_some ht
    have hida : (approvedTask s.clock t).id = tid := by
      simp only [approvedTask]
      exact hkt
    have hr' : findRequest (putRequest s rid
        (setTasks r (replaceFirstBy Task.id tid (approvedTask s.clock t) r.tasks)
          s.clock)) rid =
        some (setTasks r (replaceFirstBy Task.id tid (approvedTask s.clock t) r.tasks)
          s.clock) :=
      findRequest_putRequest_self hr (by simp [setTasks])
    have ht' : findTask (setTasks r
        (replaceFirstBy Task.id tid (approvedTask s.clock t) r.tasks) s.clock) tid =
        some (approvedTask s.clock t) := by
      simp only [findTask, setTasks]
      exact find?_replaceFirstBy_self hida ht
    refine ⟨approvedTask s.clock t, ?_⟩
    have := approve_task_completion_already hr' ht'
      (by simp [approvedTask, hd]) (by simp [approvedTask])
    exact this

/-- C2 witness: after planning and completing the first task, it is `DONE`
but a reachable state shows approved ⟹ done at the fully approved task of
the §8 scenario. -/
theorem c2_witness : demoTask.status = TStatus.DONE :=
  c2_approved_implies_done.1 demoOps demoRequest (by decide) demoTask
    (by decide) (by decide)

end PMAgent

namespace PMAgent

/-- C5: a `DONE` task is immutable except for approval — on a done task,
`mark_task_done` fails with `InvalidStateError` (never silently succeeds)
and `update_task`/`delete_task` fail with `InvalidStateError`, each leaving
the whole store (hence the task and its request) unchanged (first
conjunct); and no operation ever moves a task from `DONE` back to
`PENDING` (second conjunct). -/
theorem c5_done_task_immutable :
    (∀ (s : PlannerState) (rid tid : Nat) (r : Request) (t : Task)
        (cd ti de : Option String),
        findRequest s rid = some r → findTask r tid = some t →
        t.status = TStatus.DONE →
        mark_task_done s rid tid cd =
          .error (.invalidStateError "task is already done" [t.id]) ∧
        update_task s rid tid ti de =
          .error (.invalidStateError "a done task cannot be updated" [t.id]) ∧
        delete_task s rid tid =
          .error (.invalidStateError "a done task cannot be deleted" [t.id]) ∧
        applyOp s (Op.markTaskDone rid tid cd) = s ∧
        applyOp s (Op.updateTask rid tid ti de) = s ∧
        applyOp s (Op.deleteTask rid tid) = s)
    ∧ (∀ (s : PlannerState) (op : Op) (rid tid : Nat) (r : Request) (t : Task),
        findRequest s rid = some r → findTask r tid = some t →
        t.status = TStatus.DONE →
        ∀ (r' : Request) (t' : Task),
          findRequest (applyOp s op) rid = some r' →
          findTask r' tid = some t' → t'.status = TStatus.DONE) := by
  refine ⟨?_, ?_⟩
  · intro s rid tid r t cd ti de hr ht hd
    refine ⟨mark_task_done_on_done cd hr ht hd,
      update_task_on_done ti de hr ht hd,
      delete_task_on_done hr ht hd, ?_, ?_, ?_⟩
    · simp [applyOp, step, opRun, mark_task_done_on_done cd hr ht hd]
    · simp [applyOp, step, opRun, update_task_on_done ti de hr ht hd]
    · simp [applyOp, step, opRun, delete_task_on_done hr ht hd]
  · intro s op rid tid r t hr ht hd r' t' hr' ht'
    exact done_stays_done s op hr ht hd hr' ht'

/-- C5 witness: in the post-`mark_task_done` demo store, all three mutators
reject the done task and leave the store unchanged. -/
theorem c5_witness :
    mark_task_done demoState2 0 1 none =
      .error (.invalidStateError "task is already done" [demoTask2.id]) ∧
    update_task demoState2 0 1 (some "t") none =
      .error (.invalidStateError "a done task cannot be updated" [demoTask2.id]) ∧
    delete_task demoState2 0 1 =
      .error (.invalidStateError "a done task cannot be deleted" [demoTask2.id]) ∧
    applyOp demoState2 (Op.markTaskDone 0 1 none) = demoState2 ∧
    applyOp demoState2 (Op.updateTask 0 1 (some "t") none) = demoState2 ∧
    applyOp demoState2 (Op.deleteTask 0 1) = demoState2 :=
  c5_done_task_immutable.1 demoState2 0 1 demoRequest2 demoTask2
    none (some "t") none (by decide) (by decide) (by decide)

/-- C6: every planner error is caught at the dispatch boundary and rendered
as the uniform failure envelope carrying the error's message, with the
store left exactly as it was — all-or-nothing (first conjunct); successful
operations return the success envelope (second conjunct); and every
dispatch yields either a success envelope or such a failure envelope, never
anything else — the dispatcher is a total function, so no input crashes the
process (third conjunct). -/
theorem c6_uniform_error_envelope :
    (∀ (s : PlannerState) (op : Op) (e : PlannerError),
        opRun s op = .error e → step s op = (s, .failure (errMessage e)))
    ∧ (∀ (s : PlannerState) (op : Op) (s' : PlannerState) (out : Output),
        opRun s op = .ok (s', out) → step s op = (s', .success out))
    ∧ (∀ (s : PlannerState) (op : Op),
        (∃ out, (step s op).2 = .success out) ∨
        (∃ e, opRun s op = .error e ∧ (step s op).1 = s ∧
          (step s op).2 = .failure (errMessage e))) := by
  refine ⟨?_, ?_, ?_⟩
  · intro s op e h
    simp [step, h]
  · intro s op s' out h
    simp [step, h]
  · intro s op
    rcases applyOp_cases s op with ⟨s', out, _, _, h2⟩ | ⟨e, h1, h2, h3⟩
    · exact Or.inl ⟨out, h2⟩
    · exact Or.inr ⟨e, h1, by simpa [applyOp] using h2, h3⟩

/-- C6 witness: a `get_next_task` on an unknown id errors in the planner and
the dispatcher renders the uniform failure envelope with the store
untouched. -/
theorem c6_witness :
    step initState (Op.getNextTask 7) =
      (initState, .failure (errMessage (.notFoundError "request not found"))) :=
  c6_uniform_error_envelope.1 initState (Op.getNextTask 7)
    (.notFoundError "request not found") rfl

end PMAgent

namespace PMAgent

/-- C4: `get_next_task` fails with `NotFoundError` exactly on an unknown
request id (first conjunct); on an existing request it answers with the
summary record (second conjunct) whose `task` field is the first `PENDING`
task of the list, whose flags report its presence and whether all tasks are
done, and whose summaries cover every task (third conjunct); the task
returned is the first pending one — everything before it is `DONE`
(fourth conjunct); nothing is mutated (fifth conjunct); and the task list
searched is exactly the insertion order: `request_planning` creates the
tasks in input order and `add_tasks_to_request` appends at the end (sixth
and seventh conjuncts). -/
theorem c4_get_next_task_first_pending :
    (∀ (s : PlannerState) (rid : Nat), findRequest s rid = none →
        get_next_task s rid = .error (.notFoundError "request not found"))
    ∧ (∀ (s : PlannerState) (rid : Nat) (r : Request),
        findRequest s rid = some r →
        get_next_task s rid = .ok (.next (nextTaskResultOf r)))
    ∧ (∀ r : Request,
        (nextTaskResultOf r).task =
          r.tasks.find? (fun t => t.status == TStatus.PENDING) ∧
        (nextTaskResultOf r).hasNextTask = ((nextTaskResultOf r).task).isSome ∧
        (nextTaskResultOf r).allTasksDone =
          r.tasks.all (fun t => t.status == TStatus.DONE) ∧
        (nextTaskResultOf r).tasksProgress = r.tasks.map summarizeTask)
    ∧ (∀ (r : Request) (t : Task),
        r.tasks.find? (fun u => u.status == TStatus.PENDING) = some t →
        t.status = TStatus.PENDING ∧
        ∃ pre suf, r.tasks = pre ++ t :: suf ∧
          ∀ u ∈ pre, u.status = TStatus.DONE)
    ∧ (∀ (s : PlannerState) (rid : Nat), applyOp s (Op.getNextTask rid) = s)
    ∧ (∀ (s : PlannerState) (orig : Option String) (ts : List TaskInput)
          (sd : Option String) (s' : PlannerState) (out : Output),
        request_planning s orig ts sd = .ok (s', out) →
        ∃ pairs req, normalizeTasks ts = .ok pairs ∧
          s'.requests = s.requests ++ [req] ∧
          req.tasks.map Task.title = pairs.map Prod.fst)
    ∧ (∀ (s : PlannerState) (rid : Nat) (ts : List TaskInput)
          (s' : PlannerState) (out : Output),
        add_tasks_to_request s rid ts = .ok (s', out) →
        ∃ r pairs r', findRequest s rid = some r ∧
          normalizeTasks ts = .ok pairs ∧ findRequest s' rid = some r' ∧
          r'.tasks = r.tasks ++ mkTasks s.nextId s.clock pairs) := by
  refine ⟨?_, ?_, ?_, ?_, ?_, ?_, ?_⟩
  · intro s rid h
    exact get_next_task_notfound h
  · intro s rid r hr
    exact get_next_task_found hr
  · intro r
    exact ⟨rfl, rfl, rfl, rfl⟩
  · intro r t h
    have hp := List.find?_some h
    refine ⟨by simpa using hp, ?_⟩
    obtain ⟨pre, suf, hl, hpre⟩ := find?_eq_some_split h
    refine ⟨pre, suf, hl, ?_⟩
    intro u hu
    have := hpre u hu
    cases hst : u.status
    · rw [hst] at this
      simp at this
    · rfl
  · intro s rid
    rcases applyOp_cases s (Op.getNextTask rid) with ⟨s', out, hok, hst, _⟩ | ⟨e, _, hst, _⟩
    · rw [hst, (opRun_getNextTask_ok hok).1]
    · exact hst
  · intro s orig ts sd s' out h
    obtain ⟨o, pairs, _, _, hn, _, hs'⟩ := request_planning_ok h
    subst hs'
    exact ⟨pairs, _, hn, rfl, mkTasks_map_title s.clock (s.nextId + 1) pairs⟩
  · intro s rid ts s' out h
    obtain ⟨r, pairs, hr, hc, hn, _, hs'⟩ := add_tasks_to_request_ok h
    subst hs'
    refine ⟨r, pairs, setTasks r (r.tasks ++ mkTasks s.nextId s.clock pairs) s.clock,
      hr, hn, ?_, rfl⟩
    have hreq : findRequest { putRequest s rid
        (setTasks r (r.tasks ++ mkTasks s.nextId s.clock pairs) s.clock)
        with nextId := s.nextId + pairs.length } rid
        = findRequest (putRequest s rid
            (setTasks r (r.tasks ++ mkTasks s.nextId s.clock pairs) s.clock)) rid := rfl
    rw [hreq]
    exact findRequest_putRequest_self hr (by simp [setTasks])

/-- C4 witness: right after planning the demo request, `get_next_task`
answers with its summary record. -/
theorem c4_witness :
    get_next_task demoState1 0 = .ok (.next (nextTaskResultOf demoRequest1)) :=
  c4_get_next_task_first_pending.2.1 demoState1 0 demoRequest1 (by decide)

/-- C7: `list_requests` returns one summary per stored request — same
length, and the i-th summary is the summary of the i-th request, so the
whole set is returned in insertion order with no pagination (first and
second conjuncts); each summary carries id, originalRequest, status,
createdAt/updatedAt, the task count, the completed count and the
`"done/total"` progress string (third conjunct); and the dispatcher returns
them unchanged without touching the store (fourth conjunct). -/
theorem c7_list_requests_complete :
    ∀ s : PlannerState,
      (list_requests s).length = s.requests.length ∧
      (∀ i : Nat, (list_requests s).get? i =
        (s.requests.get? i).map summarizeRequest) ∧
      (∀ r ∈ s.requests,
        summarizeRequest r =
          { id := r.id, originalRequest := r.originalRequest,
            status := r.status, createdAt := r.createdAt,
            updatedAt := r.updatedAt, taskCount := r.tasks.length,
            completedCount := doneCount r,
            progress := toString (doneCount r) ++ "/" ++
              toString r.tasks.length }) ∧
      step s Op.listRequests = (s, .success (.listed (list_requests s))) := by
  intro s
  refine ⟨by simp [list_requests], ?_, ?_, rfl⟩
  · intro i
    simp [list_requests]
  · intro r _
    rfl

/-- C7 witness: the summary of the completed demo request carries exactly
the documented fields. -/
theorem c7_witness :
    summarizeRequest demoRequest =
      { id := demoRequest.id, originalRequest := demoRequest.originalRequest,
        status := demoRequest.status, createdAt := demoRequest.createdAt,
        updatedAt := demoRequest.updatedAt,
        taskCount := demoRequest.tasks.length,
        completedCount := doneCount demoRequest,
        progress := toString (doneCount demoRequest) ++ "/" ++
          toString demoRequest.tasks.length } :=
  (c7_list_requests_complete demoState).2.2.1 demoRequest (by decide)

end PMAgent

namespace PMAgent

theorem progressRowsFrom_length : ∀ (i : Nat) (ts : List Task),
    (progressRowsFrom i ts).length = ts.length
  | _, [] => rfl
  | i, t :: ts => by
    simp [progressRowsFrom, progressRowsFrom_length (i + 1) ts]

theorem progressRowsFrom_get? : ∀ (i : Nat) (ts : List Task) (j : Nat),
    (progressRowsFrom i ts).get? j =
      (ts.get? j).map (fun t => progressRow (i + j) t)
  | _, [], j => by simp [progressRowsFrom]
  | i, t :: ts, 0 => by simp [progressRowsFrom]
  | i, t :: ts, j + 1 => by
    have harith : i + 1 + j = i + (j + 1) := by omega
    simp only [progressRowsFrom, List.get?]
    rw [progressRowsFrom_get? (i + 1) ts j, harith]

/-- C8: the progress table is the Markdown table whose header and separator
declare exactly the columns `#`, ID, title, status and approved (first
three conjuncts), whose row list has one row per task in request order
(fourth and fifth conjuncts), whose rows render those five cells with the
⏳/✅ status marks and ✓/✗ approval marks (sixth and seventh conjuncts),
and which is exactly the `progressTable` string answered by
`request_planning` and `get_next_task` in every request state (last two
conjuncts). -/
theorem c8_progress_table_rendering :
    (∀ ts : List Task, renderProgressTable ts =
        String.intercalate "\n"
          (tableHeader :: tableSep :: progressRowsFrom 1 ts) ++ "\n")
    ∧ tableHeader = "| # | ID | 작업 제목 | 상태 | 승인 |"
    ∧ tableSep = "|---|----|-----------|------|------|"
    ∧ (∀ (i : Nat) (ts : List Task), (progressRowsFrom i ts).length = ts.length)
    ∧ (∀ (i : Nat) (ts : List Task) (j : Nat),
        (progressRowsFrom i ts).get? j =
          (ts.get? j).map (fun t => progressRow (i + j) t))
    ∧ (∀ (i : Nat) (t : Task), progressRow i t =
        "| " ++ toString i ++ " | " ++ toString t.id ++ " | " ++ t.title ++
          " | " ++ statusCell t.status ++ " | " ++ approvedCell t.approved ++ " |")
    ∧ (statusCell TStatus.PENDING = "⏳ 대기 중" ∧
        statusCell TStatus.DONE = "✅ 완료" ∧
        approvedCell true = "✓" ∧ approvedCell false = "✗")
    ∧ (∀ (s : PlannerState) (orig : Option String) (ts : List TaskInput)
          (sd : Option String) (s' : PlannerState) (rid n : Nat) (tbl : String),
        request_planning s orig ts sd = .ok (s', .planned rid n tbl) →
        ∃ req, s'.requests = s.requests ++ [req] ∧
          tbl = renderProgressTable req.tasks)
    ∧ (∀ (s : PlannerState) (rid : Nat) (r : Request) (res : NextTaskResult),
        findRequest s rid = some r → get_next_task s rid = .ok (.next res) →
        res.progressTable = renderProgressTable r.tasks) := by
  refine ⟨fun ts => rfl, rfl, rfl, progressRowsFrom_length, progressRowsFrom_get?,
    fun i t => rfl, ⟨rfl, rfl, rfl, rfl⟩, ?_, ?_⟩
  · intro s orig ts sd s' rid n tbl h
    obtain ⟨o, pairs, _, _, _, hout, hs'⟩ := request_planning_ok h
    subst hs'
    refine ⟨_, rfl, ?_⟩
    injection hout with h1 h2 h3
  · intro s rid r res hr hok
    rw [get_next_task_found hr] at hok
    have : Output.next (nextTaskResultOf r) = Output.next res := by injection hok
    have hres : nextTaskResultOf r = res := by injection this
    rw [← hres]
    rfl

/-- C8 witness: the summary record answered for the freshly planned demo
request carries exactly the rendered progress table of its task list. -/
theorem c8_witness :
    (nextTaskResultOf demoRequest1).progressTable =
      renderProgressTable demoRequest1.tasks :=
  c8_progress_table_rendering.2.2.2.2.2.2.2.2 demoState1 0 demoRequest1
    (nextTaskResultOf demoRequest1) (by decide) (by rfl)

end PMAgent

namespace PMAgent

/-- C3 (observed divergence): the two-element list entry
`["태스크 제목", "태스크 설명"]` IS convertible — normalization turns it into
the canonical title/description pair, and a genuinely malformed entry (a
one-element list) is rejected with a `ValidationError` naming index 0
(first three conjuncts) — yet the served `/invoke` path, as recorded in
`test_output3.txt` (failing test `test_non_dict_tasks`), answers HTTP 400
with the conversion-failure detail for exactly that convertible pair
instead of the 200 its own test asserts (remaining conjuncts). -/
theorem c3_convertible_pair_rejected_by_server :
    normalizeTask (.pair ["태스크 제목", "태스크 설명"]) =
      some ("태스크 제목", "태스크 설명")
    ∧ normalizeTasks [.pair ["태스크 제목", "태스크 설명"]] =
      .ok [("태스크 제목", "태스크 설명")]
    ∧ normalizeTasks [.pair ["title only entry"]] =
      .error (.validationError "task entry cannot be normalized" (some 0))
    ∧ (invokeHttp initState (.obj (.requestPlanning (some "테스트 요청")
        [.pair ["태스크 제목", "태스크 설명"]] none))).2.1 = 400
    ∧ (invokeHttp initState (.obj (.requestPlanning (some "테스트 요청")
        [.pair ["태스크 제목", "태스크 설명"]] none))).2.2 =
      .validationDetail "태스크[0]를 딕셔너리로 변환할 수 없습니다"
    ∧ (400 : Nat) ≠ 200 :=
  ⟨rfl, rfl, rfl, rfl, rfl, by decide⟩

/-- C9: the served tool schema in `tools_result.json` declares
`list_requests` with a required `random_string` parameter described as the
placeholder for parameter-less tools, whereas the schema in
`pmagent-mcp.json` declares the same operation with an empty parameters
object — the two published interfaces disagree. -/
theorem c9_list_requests_schemas_disagree :
    toolsResult_list_requests.required = ["random_string"]
    ∧ toolsResult_list_requests.properties =
      [("random_string", "무작위 문자열 (파라미터 없는 도구용)")]
    ∧ pmagentMcp_list_requests.required = []
    ∧ pmagentMcp_list_requests.properties = []
    ∧ toolsResult_list_requests ≠ pmagentMcp_list_requests :=
  ⟨rfl, rfl, rfl, rfl, by decide⟩

/-- C10: a call whose parameters decode to an operation without list-form
task entries is answered with HTTP 200 and the in-band success/error
envelope of the dispatcher (first conjunct); parameters sent as a JSON
list are rejected with 422 and list-form task entries with 400, neither
reaching the envelope (second and third conjuncts); and two concrete calls
— one succeeding, one failing inside the tool — both answer 200, so the
status code alone does not distinguish them (last two conjuncts). -/
theorem c10_http_status_not_discriminating :
    (∀ (s : PlannerState) (op : Op), hasListFormTask op = false →
        invokeHttp s (.obj op) = ((step s op).1, 200, .envelope (step s op).2))
    ∧ (∀ s : PlannerState, invokeHttp s .list =
        (s, 422, .validationDetail "value is not a valid dict"))
    ∧ (∀ (s : PlannerState) (op : Op), hasListFormTask op = true →
        invokeHttp s (.obj op) =
          (s, 400, .validationDetail "태스크[0]를 딕셔너리로 변환할 수 없습니다"))
    ∧ (∃ out : Output, (invokeHttp initState (.obj (.requestPlanning (some "A")
        [.obj (some "T") none] none))).2 =
        (200, .envelope (.success out)))
    ∧ (∃ msg : String, (invokeHttp initState (.obj (.getNextTask 99))).2 =
        (200, .envelope (.failure msg))) := by
  refine ⟨?_, fun s => rfl, ?_, ?_, ?_⟩
  · intro s op h
    simp [invokeHttp, h]
  · intro s op h
    simp [invokeHttp, h]
  · exact ⟨.planned 0 1 (renderProgressTable
      (mkTasks 1 0 [("T", "")])), rfl⟩
  · exact ⟨"request not found", rfl⟩

/-- C10 witness: a list-form-free call is served in-band with status 200. -/
theorem c10_witness :
    invokeHttp initState (.obj (.getNextTask 3)) =
      ((step initState (.getNextTask 3)).1, 200,
        .envelope (step initState (.getNextTask 3)).2) :=
  c10_http_status_not_discriminating.1 initState (.getNextTask 3) rfl

end PMAgent
